import Mathlib

/-!
Verification of the geometric pipeline of stl-to-gcode.py: plane-triangle
intersection, layer slicing, toolpath ordering, and G-code serialization.
Python floats are modelled as exact rationals; the while loop of slice_model
is modelled with an explicit fuel parameter (none = the loop is still
running when the fuel runs out, mirroring potential divergence).
-/

namespace StlToGcode

/-- A 2D point (x, y), as produced by projecting a vertex with [:2]. -/
abbrev Point2 := ℚ × ℚ

/-- A vertex of the mesh: an (x, y, z) triple. -/
structure Vec3 where
  x : ℚ
  y : ℚ
  z : ℚ
  deriving DecidableEq, Repr

/-- A triangle: exactly three vertices, as in triangle.reshape(3, 3). -/
structure Triangle where
  v0 : Vec3
  v1 : Vec3
  v2 : Vec3
  deriving DecidableEq, Repr

/-- Componentwise vector addition (numpy +). -/
def vAdd (a b : Vec3) : Vec3 := ⟨a.x + b.x, a.y + b.y, a.z + b.z⟩

/-- Componentwise vector subtraction (numpy -). -/
def vSub (a b : Vec3) : Vec3 := ⟨a.x - b.x, a.y - b.y, a.z - b.z⟩

/-- Scalar multiplication (numpy t * v). -/
def vSmul (t : ℚ) (a : Vec3) : Vec3 := ⟨t * a.x, t * a.y, t * a.z⟩

/-- Projection to (x, y), the Python slice p[:2]. -/
def proj2 (a : Vec3) : Point2 := (a.x, a.y)

/-- vertices[i] for i = 0, 1, 2 (and anything larger maps to v2;
calculate_plane_intersection only uses indices 0, 1, 2). -/
def vert (t : Triangle) : Nat → Vec3
  | 0 => t.v0
  | 1 => t.v1
  | _ => t.v2

/-- The guard of the interpolation branch:
(z1 < z <= z2) or (z2 < z <= z1). -/
def interpGuard (z1 z2 z : ℚ) : Prop :=
  (z1 < z ∧ z ≤ z2) ∨ (z2 < z ∧ z ≤ z1)

instance interpGuard.instDecidable (z1 z2 z : ℚ) : Decidable (interpGuard z1 z2 z) := by
  unfold interpGuard; infer_instance

/-- The loop body of calculate_plane_intersection for one edge (p1, p2):
the points this edge contributes to the intersections list. -/
def edgeIntersection (p1 p2 : Vec3) (z : ℚ) : List Point2 :=
  let z1 := p1.z
  let z2 := p2.z
  if z1 = z ∧ z2 = z then
    [proj2 p1, proj2 p2]
  else if interpGuard z1 z2 z then
    let t := (z - z1) / (z2 - z1)
    [proj2 (vAdd p1 (vSmul t (vSub p2 p1)))]
  else
    []

/-- calculate_plane_intersection(triangle, z): loop i over range(3) with
p1 = vertices[i], p2 = vertices[(i + 1) % 3], extending the accumulator
with each edge contribution. -/
def calculate_plane_intersection (tri : Triangle) (z : ℚ) : List Point2 :=
  (List.range 3).foldl
    (fun acc i => acc ++ edgeIntersection (vert tri i) (vert tri ((i + 1) % 3)) z) []

/-- The per-edge emission exactly as the spec words it: both (x,y)
projections verbatim when z1 = z = z2; the single interpolated point
p1 + t(p2 - p1) with t = (z - z1)/(z2 - z1), projected to (x,y), when
(z1 < z <= z2) or (z2 < z <= z1); nothing otherwise. -/
def edgeEmitSpec (p1 p2 : Vec3) (z : ℚ) : List Point2 :=
  if p1.z = z ∧ p2.z = z then
    [(p1.x, p1.y), (p2.x, p2.y)]
  else if (p1.z < z ∧ z ≤ p2.z) ∨ (p2.z < z ∧ z ≤ p1.z) then
    [(p1.x + (z - p1.z) / (p2.z - p1.z) * (p2.x - p1.x),
      p1.y + (z - p1.z) / (p2.z - p1.z) * (p2.y - p1.y))]
  else
    []

/-- The inner loop body of slice_model at one height z: start from an
empty layer_edges list and append each intersection result whose length
is exactly 2. -/
def layerEdges (mesh : List Triangle) (z : ℚ) : List (List Point2) :=
  mesh.foldl
    (fun acc t =>
      let intersections := calculate_plane_intersection t z
      if intersections.length = 2 then acc ++ [intersections] else acc)
    []

/-- The while loop of slice_model: while z <= z_max, collect the layer at
z and advance z by layer_height. The Nat argument is fuel: none means the
loop was still running when the fuel ran out (the loop diverges when
layer_height <= 0). -/
def sliceLoop (mesh : List Triangle) (zmax h : ℚ) : Nat → ℚ → Option (List (List (List Point2)))
  | 0, z => if z ≤ zmax then none else some []
  | fuel + 1, z =>
      if z ≤ zmax then
        (sliceLoop mesh zmax h fuel (z + h)).map (fun rest => layerEdges mesh z :: rest)
      else some []

/-- The same while loop, recording only the swept heights. -/
def heightsFuel (zmax h : ℚ) : Nat → ℚ → Option (List ℚ)
  | 0, z => if z ≤ zmax then none else some []
  | fuel + 1, z =>
      if z ≤ zmax then
        (heightsFuel zmax h fuel (z + h)).map (fun rest => z :: rest)
      else some []

/-- All z-coordinates of the mesh, in triangle order (mesh_data.z). -/
def meshZs (mesh : List Triangle) : List ℚ :=
  mesh.flatMap (fun t => [t.v0.z, t.v1.z, t.v2.z])

/-- slice_model(mesh_data, layer_height): z_min and z_max are the min and
max z over all vertices (none models the numpy error on an empty mesh),
then the while loop sweeps from z_min. -/
def slice_model (mesh : List Triangle) (h : ℚ) (fuel : Nat) :
    Option (List (List (List Point2))) :=
  match (meshZs mesh).min?, (meshZs mesh).max? with
  | some zmin, some zmax => sliceLoop mesh zmax h fuel zmin
  | _, _ => none

/-- A sample single-triangle mesh with z_min = 0 and z_max = 1, used to
instantiate concrete runs. -/
def sampleMesh : List Triangle :=
  [⟨⟨0, 0, 0⟩, ⟨1, 0, 0⟩, ⟨0, 1, 1⟩⟩]

/-- The sort key of generate_toolpaths: Python sorts the points by the
tuple key (p[0], p[1]), i.e. lexicographically by x then y. -/
def pointLe (p q : Point2) : Prop :=
  p.1 < q.1 ∨ (p.1 = q.1 ∧ p.2 ≤ q.2)

instance pointLe.instDecidableRel : DecidableRel pointLe := fun p q => by
  unfold pointLe; infer_instance

instance pointLe.instIsTotal : IsTotal Point2 pointLe where
  total a b := by
    unfold pointLe
    rcases lt_trichotomy a.1 b.1 with hx | hx | hx
    · exact Or.inl (Or.inl hx)
    · rcases le_total a.2 b.2 with hy | hy
      · exact Or.inl (Or.inr ⟨hx, hy⟩)
      · exact Or.inr (Or.inr ⟨hx.symm, hy⟩)
    · exact Or.inr (Or.inl hx)

instance pointLe.instIsTrans : IsTrans Point2 pointLe where
  trans a b c hab hbc := by
    unfold pointLe at hab hbc ⊢
    rcases hab with h1 | ⟨h1, h2⟩ <;> rcases hbc with h3 | ⟨h3, h4⟩
    · exact Or.inl (h1.trans h3)
    · exact Or.inl (h3 ▸ h1)
    · exact Or.inl (h1 ▸ h3)
    · exact Or.inr ⟨h1.trans h3, h2.trans h4⟩

/-- generate_toolpaths(layers): for each layer, extend a path with every
edge (a pair of points), then, if the path is nonempty, sort it by the
key (x, y); append the path to the toolpath list. Python sorted is a
stable sort by the key; it is modelled by insertion sort on pointLe,
which is also stable with respect to that key. -/
def generate_toolpaths (layers : List (List (List Point2))) : List (List Point2) :=
  layers.foldl
    (fun toolpaths layer =>
      let path := layer.foldl (fun path edge => path ++ edge) []
      let path := if path.isEmpty then path else List.insertionSort pointLe path
      toolpaths ++ [path])
    []

/-- Round half to even, the rounding used by Python float formatting
(applied here to the exact rational value). -/
def roundHalfEven (x : ℚ) : ℤ :=
  let f := ⌊x⌋
  let r := x - f
  if r < 1 / 2 then f
  else if 1 / 2 < r then f + 1
  else if f % 2 = 0 then f else f + 1

/-- Two-digit rendering of a natural number below 100. -/
def pad2 (m : Nat) : String :=
  String.mk [Nat.digitChar (m / 10), Nat.digitChar (m % 10)]

/-- The Python format f-string with format spec .2f: round the value to
two decimal places (half to even) and print it with exactly two digits
after the decimal point. -/
def fmt2 (q : ℚ) : String :=
  let n := roundHalfEven (q * 100)
  let m := n.natAbs
  (if q < 0 then "-" else "") ++ toString (m / 100) ++ "." ++ pad2 (m % 100)

/-- The fixed G-code preamble, one string per written line. -/
def preamble : List String :=
  ["G21 ; Set units to mm\n",
   "G90 ; Absolute positioning\n",
   "M104 S200 ; Set extruder temperature\n",
   "M140 S60 ; Set bed temperature\n",
   "M190 S60 ; Wait for bed temperature\n",
   "M109 S200 ; Wait for extruder temperature\n"]

/-- The fixed G-code postamble. -/
def postamble : List String :=
  ["M104 S0 ; Turn off extruder\n",
   "M140 S0 ; Turn off bed\n",
   "M84 ; Disable motors\n"]

/-- The Z-move line written for one layer. -/
def zLine (z : ℚ) : String :=
  "G1 Z" ++ fmt2 z ++ " F300 ; Move to layer height\n"

/-- The XY-move line written for one toolpath point. -/
def xyLine (p : Point2) : String :=
  "G1 X" ++ fmt2 p.1 ++ " Y" ++ fmt2 p.2 ++ " F1500 ; Move\n"

/-- The layer loop of generate_gcode: the accumulator z starts at 0 and
is increased by layer_height before each Z-move line; each layer then
contributes one XY-move line per point. -/
def gcodeLoop (h : ℚ) : List (List Point2) → ℚ → List String
  | [], _ => []
  | layer :: rest, z =>
      let z1 := z + h
      (zLine z1 :: layer.map xyLine) ++ gcodeLoop h rest z1

/-- generate_gcode(toolpaths, layer_height): the written lines, in
order. -/
def generate_gcode (toolpaths : List (List Point2)) (h : ℚ) : List String :=
  preamble ++ gcodeLoop h toolpaths 0 ++ postamble

/-- The run of characters after the last dot of a string (the decimal
digits of a formatted number). -/
def decimalTail (s : String) : List Char :=
  s.data.reverse.takeWhile (fun c => c ≠ Char.ofNat 46)

/-- The whole pipeline: slice, build toolpaths, emit G-code. -/
def pipeline (mesh : List Triangle) (h : ℚ) (fuel : Nat) : Option (List String) :=
  (slice_model mesh h fuel).map (fun layers =>
    generate_gcode (generate_toolpaths layers) h)

/-- The intersection list is the concatenation of the three per-edge
contributions, in edge order (v0,v1), (v1,v2), (v2,v0). -/
theorem calculate_plane_intersection_eq_edges (tri : Triangle) (z : ℚ) :
    calculate_plane_intersection tri z =
      edgeIntersection tri.v0 tri.v1 z ++ edgeIntersection tri.v1 tri.v2 z ++
        edgeIntersection tri.v2 tri.v0 z := by
  simp [calculate_plane_intersection, List.range_succ, vert]

/-- C1: for every triangle and plane height z, the result of
calculate_plane_intersection is the concatenation, edge by edge in order
(v0,v1), (v1,v2), (v2,v0), of the spec-worded per-edge emissions: both
endpoints verbatim when the edge lies in the plane, the single
interpolated point when (z1 < z <= z2) or (z2 < z <= z1), nothing
otherwise; duplicates are not removed. -/
theorem C1_plane_intersection_per_edge (tri : Triangle) (z : ℚ) :
    calculate_plane_intersection tri z =
      edgeEmitSpec tri.v0 tri.v1 z ++ edgeEmitSpec tri.v1 tri.v2 z ++
        edgeEmitSpec tri.v2 tri.v0 z := by
  rw [calculate_plane_intersection_eq_edges]
  have h : ∀ p1 p2 : Vec3, edgeIntersection p1 p2 z = edgeEmitSpec p1 p2 z := by
    intro p1 p2
    simp only [edgeIntersection, edgeEmitSpec, interpGuard, proj2, vAdd, vSmul, vSub]
  rw [h, h, h]

/-- layer_edges collects, in mesh order, exactly the intersection results
with exactly 2 points. -/
theorem layerEdges_eq_filter (mesh : List Triangle) (z : ℚ) :
    layerEdges mesh z =
      (mesh.map (fun t => calculate_plane_intersection t z)).filter
        (fun r => decide (r.length = 2)) := by
  suffices h : ∀ acc : List (List Point2),
      mesh.foldl
        (fun acc t =>
          let intersections := calculate_plane_intersection t z
          if intersections.length = 2 then acc ++ [intersections] else acc)
        acc =
      acc ++ (mesh.map (fun t => calculate_plane_intersection t z)).filter
        (fun r => decide (r.length = 2)) by
    simpa [layerEdges] using h []
  induction mesh with
  | nil => intro acc; simp
  | cons t ts ih =>
      intro acc
      simp only [List.foldl_cons, List.map_cons, List.filter_cons]
      by_cases hl : (calculate_plane_intersection t z).length = 2
      · simp [hl, ih]
      · simp [hl, ih]

/-- The slicing loop is the heights loop with the per-height layer
computation mapped over it. -/
theorem sliceLoop_eq_heightsFuel (mesh : List Triangle) (zmax h : ℚ) :
    ∀ (fuel : Nat) (z : ℚ),
      sliceLoop mesh zmax h fuel z =
        (heightsFuel zmax h fuel z).map (List.map (layerEdges mesh)) := by
  intro fuel
  induction fuel with
  | zero =>
      intro z
      by_cases hz : z ≤ zmax <;> simp [sliceLoop, heightsFuel, hz]
  | succ n ih =>
      intro z
      by_cases hz : z ≤ zmax
      · simp only [sliceLoop, heightsFuel, if_pos hz, ih, Option.map_map]
        congr 1
      · simp [sliceLoop, heightsFuel, hz]

/-- When the heights loop finishes, the i-th swept height is z + i * h,
every swept height is at most zmax, and the first unswept height exceeds
zmax. -/
theorem heightsFuel_spec (zmax h : ℚ) :
    ∀ (fuel : Nat) (z : ℚ) (zs : List ℚ), heightsFuel zmax h fuel z = some zs →
      (∀ i (hi : i < zs.length), zs.get ⟨i, hi⟩ = z + i * h ∧ z + i * h ≤ zmax) ∧
      zmax < z + zs.length * h := by
  intro fuel
  induction fuel with
  | zero =>
      intro z zs hrun
      by_cases hz : z ≤ zmax
      · simp [heightsFuel, hz] at hrun
      · simp only [heightsFuel, if_neg hz, Option.some.injEq] at hrun
        subst hrun
        refine ⟨by simp, ?_⟩
        simpa using not_le.mp hz
  | succ n ih =>
      intro z zs hrun
      by_cases hz : z ≤ zmax
      · simp only [heightsFuel, if_pos hz] at hrun
        cases hrec : heightsFuel zmax h n (z + h) with
        | none => rw [hrec] at hrun; simp at hrun
        | some zs' =>
            rw [hrec] at hrun
            simp only [Option.map_some', Option.some.injEq] at hrun
            subst hrun
            obtain ⟨hget, hlast⟩ := ih (z + h) zs' hrec
            constructor
            · intro i hi
              cases i with
              | zero => simpa using hz
              | succ j =>
                  have hj : j < zs'.length := by simpa using hi
                  have hgj := hget j hj
                  have hcast : z + ((j : ℚ) + 1) * h = (z + h) + (j : ℚ) * h := by ring
                  constructor
                  · show zs'.get ⟨j, hj⟩ = z + ((j : ℕ) + 1 : ℕ) * h
                    rw [hgj.1]
                    push_cast
                    ring
                  · have := hgj.2
                    push_cast
                    push_cast at this
                    linarith
            · have := hlast
              simp only [List.length_cons]
              push_cast
              push_cast at this
              linarith
      · simp only [heightsFuel, if_neg hz, Option.some.injEq] at hrun
        subst hrun
        refine ⟨by simp, ?_⟩
        simpa using not_le.mp hz

/-- Fuel bound: once z + fuel * h exceeds zmax, the loop finishes within
that much fuel. -/
theorem heightsFuel_isSome (zmax h : ℚ) :
    ∀ (fuel : Nat) (z : ℚ), zmax < z + fuel * h →
      (heightsFuel zmax h fuel z).isSome := by
  intro fuel
  induction fuel with
  | zero =>
      intro z hlt
      have hz : ¬ z ≤ zmax := by
        push_cast at hlt
        exact not_le.mpr (by linarith)
      simp [heightsFuel, hz]
  | succ n ih =>
      intro z hlt
      by_cases hz : z ≤ zmax
      · have hlt' : zmax < (z + h) + n * h := by
          push_cast at hlt
          linarith
        obtain ⟨zs, hzs⟩ := Option.isSome_iff_exists.mp (ih (z + h) hlt')
        simp [heightsFuel, hz, hzs]
      · simp [heightsFuel, hz]

/-- For a positive step the loop always has enough fuel, by the
Archimedean property. -/
theorem heightsFuel_exists_fuel (zmax h z : ℚ) (hh : 0 < h) :
    ∃ fuel : Nat, (heightsFuel zmax h fuel z).isSome := by
  obtain ⟨n, hn⟩ := exists_nat_gt ((zmax - z) / h)
  refine ⟨n, heightsFuel_isSome zmax h n z ?_⟩
  have := (div_lt_iff₀ hh).mp hn
  linarith

/-- C2: at each swept height, slice_model runs
calculate_plane_intersection against every triangle of the mesh and keeps
a result in that layer if and only if it has exactly 2 points (it is the
filter of the per-triangle results by length 2, in mesh order), and one
layer is emitted per swept height even when empty, so the number of
layers equals the number of swept heights. -/
theorem C2_slice_model_keeps_two_point_results (mesh : List Triangle) (h : ℚ)
    (fuel : Nat) (zmin zmax : ℚ) (zs : List ℚ)
    (hmin : (meshZs mesh).min? = some zmin)
    (hmax : (meshZs mesh).max? = some zmax)
    (hrun : heightsFuel zmax h fuel zmin = some zs) :
    slice_model mesh h fuel =
      some (zs.map (fun z =>
        (mesh.map (fun t => calculate_plane_intersection t z)).filter
          (fun r => decide (r.length = 2)))) := by
  simp only [slice_model, hmin, hmax, sliceLoop_eq_heightsFuel, hrun,
    Option.map_some']
  have hfun : layerEdges mesh = fun z =>
      (mesh.map (fun t => calculate_plane_intersection t z)).filter
        (fun r => decide (r.length = 2)) := funext (layerEdges_eq_filter mesh)
  rw [hfun]

/-- C2 witness: the sample mesh sliced with h = 1/2 and fuel 4. -/
theorem C2_slice_model_keeps_two_point_results_witness :
    (meshZs sampleMesh).min? = some 0 ∧
    (meshZs sampleMesh).max? = some 1 ∧
    heightsFuel 1 (1 / 2) 4 0 = some [0, 1 / 2, 1] ∧
    slice_model sampleMesh (1 / 2) 4 =
      some (([0, 1 / 2, 1] : List ℚ).map (fun z =>
        (sampleMesh.map (fun t => calculate_plane_intersection t z)).filter
          (fun r => decide (r.length = 2)))) := by
  have hmin : (meshZs sampleMesh).min? = some 0 := by
    norm_num [sampleMesh, meshZs, List.min?, min_def]
  have hmax : (meshZs sampleMesh).max? = some 1 := by
    norm_num [sampleMesh, meshZs, List.max?, max_def]
  have hrun : heightsFuel 1 (1 / 2) 4 0 = some [0, 1 / 2, 1] := by
    norm_num [heightsFuel]
  exact ⟨hmin, hmax, hrun,
    C2_slice_model_keeps_two_point_results sampleMesh (1 / 2) 4 0 1 [0, 1 / 2, 1]
      hmin hmax hrun⟩

/-- C5: the swept heights are z_min, z_min + h, z_min + 2h, ... while
they stay at most z_max (each emitted height is z_min + i * h and is at
most z_max, and the next height after the last emitted one exceeds
z_max); in particular for z_min = 0, z_max = 1, h = 1/2 the loop yields
exactly the three heights 0, 1/2, 1, and slicing the sample mesh with
those bounds yields exactly 3 layers. -/
theorem C5_swept_heights (zmax h z0 : ℚ) (_hh : 0 < h) (fuel : Nat)
    (zs : List ℚ) (hrun : heightsFuel zmax h fuel z0 = some zs) :
    (∀ i (hi : i < zs.length), zs.get ⟨i, hi⟩ = z0 + i * h ∧ z0 + i * h ≤ zmax) ∧
    zmax < z0 + zs.length * h ∧
    heightsFuel 1 (1 / 2) 4 0 = some [0, 1 / 2, 1] ∧
    ∃ layers, slice_model sampleMesh (1 / 2) 4 = some layers ∧ layers.length = 3 := by
  obtain ⟨h1, h2⟩ := heightsFuel_spec zmax h fuel z0 zs hrun
  refine ⟨h1, h2, by norm_num [heightsFuel], ?_⟩
  have hmin : (meshZs sampleMesh).min? = some 0 := by
    norm_num [sampleMesh, meshZs, List.min?, min_def]
  have hmax : (meshZs sampleMesh).max? = some 1 := by
    norm_num [sampleMesh, meshZs, List.max?, max_def]
  refine ⟨([0, 1 / 2, 1] : List ℚ).map (layerEdges sampleMesh), ?_, by simp⟩
  simp only [slice_model, hmin, hmax, sliceLoop_eq_heightsFuel]
  norm_num [heightsFuel]

/-- C5 witness: the swept-height characterization instantiated on the
run with z_min = 0, z_max = 1, h = 1/2. -/
theorem C5_swept_heights_witness :
    (0 : ℚ) < 1 / 2 ∧
    heightsFuel 1 (1 / 2) 4 0 = some [0, 1 / 2, 1] ∧
    ((∀ i (hi : i < ([0, 1 / 2, 1] : List ℚ).length),
        ([0, 1 / 2, 1] : List ℚ).get ⟨i, hi⟩ = 0 + i * (1 / 2) ∧
        (0 : ℚ) + i * (1 / 2) ≤ 1) ∧
      (1 : ℚ) < 0 + ([0, 1 / 2, 1] : List ℚ).length * (1 / 2) ∧
      heightsFuel 1 (1 / 2) 4 0 = some [0, 1 / 2, 1] ∧
      ∃ layers, slice_model sampleMesh (1 / 2) 4 = some layers ∧ layers.length = 3) := by
  have hh : (0 : ℚ) < 1 / 2 := by norm_num
  have hrun : heightsFuel 1 (1 / 2) 4 0 = some [0, 1 / 2, 1] := by
    norm_num [heightsFuel]
  exact ⟨hh, hrun, C5_swept_heights 1 (1 / 2) 0 hh 4 [0, 1 / 2, 1] hrun⟩

/-- C10: for every nonempty mesh and every layer height h > 0, the while
loop of slice_model terminates: some finite fuel suffices for the loop to
finish (the swept height increases by h each iteration until it exceeds
z_max). -/
theorem C10_slice_model_terminates (mesh : List Triangle) (h : ℚ)
    (hh : 0 < h) (hne : mesh ≠ []) :
    ∃ fuel : Nat, (slice_model mesh h fuel).isSome := by
  cases mesh with
  | nil => exact absurd rfl hne
  | cons t ts =>
      obtain ⟨zmin, hmin⟩ : ∃ m, (meshZs (t :: ts)).min? = some m := by
        simp [meshZs, List.min?]
      obtain ⟨zmax, hmax⟩ : ∃ m, (meshZs (t :: ts)).max? = some m := by
        simp [meshZs, List.max?]
      obtain ⟨fuel, hfuel⟩ := heightsFuel_exists_fuel zmax h zmin hh
      obtain ⟨zs, hzs⟩ := Option.isSome_iff_exists.mp hfuel
      refine ⟨fuel, ?_⟩
      simp [slice_model, hmin, hmax, sliceLoop_eq_heightsFuel, hzs]

/-- C10 witness: the sample mesh with h = 1 terminates. -/
theorem C10_slice_model_terminates_witness :
    (0 : ℚ) < 1 ∧ sampleMesh ≠ [] ∧
    ∃ fuel : Nat, (slice_model sampleMesh 1 fuel).isSome := by
  have h1 : (0 : ℚ) < 1 := by norm_num
  have h2 : sampleMesh ≠ [] := by simp [sampleMesh]
  exact ⟨h1, h2, C10_slice_model_terminates sampleMesh 1 h1 h2⟩

/-- Left-fold append starting from acc concatenates the sublists. -/
theorem foldl_append_eq_flatten {α : Type} (L : List (List α)) :
    ∀ acc : List α, L.foldl (fun a e => a ++ e) acc = acc ++ L.flatten := by
  induction L with
  | nil => intro acc; simp
  | cons l ls ih => intro acc; simp [ih]

/-- The toolpath foldl is the map of per-layer flatten-and-sort. -/
theorem generate_toolpaths_foldl (L : List (List (List Point2))) :
    ∀ acc : List (List Point2),
      L.foldl
        (fun toolpaths layer =>
          let path := layer.foldl (fun path edge => path ++ edge) []
          let path := if path.isEmpty then path else List.insertionSort pointLe path
          toolpaths ++ [path])
        acc =
      acc ++ L.map (fun layer => List.insertionSort pointLe layer.flatten) := by
  induction L with
  | nil => intro acc; simp
  | cons l ls ih =>
      intro acc
      simp only [List.foldl_cons, List.map_cons]
      rw [ih]
      simp only [foldl_append_eq_flatten, List.nil_append]
      by_cases hp : l.flatten.isEmpty
      · have hnil : l.flatten = [] := by simpa using hp
        simp [hp, hnil, List.insertionSort]
      · simp [hp]

/-- generate_toolpaths is one flatten-and-sort per layer, in order. -/
theorem generate_toolpaths_eq_map (layers : List (List (List Point2))) :
    generate_toolpaths layers =
      layers.map (fun layer => List.insertionSort pointLe layer.flatten) := by
  simpa [generate_toolpaths] using generate_toolpaths_foldl layers []

/-- C3: generate_toolpaths returns one toolpath per layer in order; each
toolpath is the concatenation of the layer's segment endpoints sorted by
the key (x ascending, then y ascending) (a sorted permutation of the
concatenation); and on the layer [[(2,1),(0,0)], [(1,1),(1,0)]] the
resulting order is (0,0), (1,0), (1,1), (2,1). -/
theorem C3_generate_toolpaths_sorts_by_xy (layers : List (List (List Point2))) :
    generate_toolpaths layers =
      layers.map (fun layer => List.insertionSort pointLe layer.flatten) ∧
    (∀ layer : List (List Point2),
        List.Sorted pointLe (List.insertionSort pointLe layer.flatten) ∧
        (List.insertionSort pointLe layer.flatten).Perm layer.flatten) ∧
    generate_toolpaths [[[(2, 1), (0, 0)], [(1, 1), (1, 0)]]] =
      [[(0, 0), (1, 0), (1, 1), (2, 1)]] := by
  refine ⟨generate_toolpaths_eq_map layers,
    fun layer => ⟨List.sorted_insertionSort pointLe _, List.perm_insertionSort pointLe _⟩, ?_⟩
  rw [generate_toolpaths_eq_map]
  norm_num [List.insertionSort, List.orderedInsert, pointLe]

/-- The gcode layer loop, started at accumulator value k * h, writes the
Z-move at (i + 1) * h for the toolpath of (0-based) index i, then one
XY-move per point. -/
theorem gcodeLoop_eq_enumFrom (h : ℚ) (tps : List (List Point2)) :
    ∀ k : ℕ, gcodeLoop h tps ((k : ℚ) * h) =
      (tps.enumFrom k).flatMap
        (fun p => zLine (((p.1 : ℚ) + 1) * h) :: p.2.map xyLine) := by
  induction tps with
  | nil => intro k; simp [gcodeLoop]
  | cons layer rest ih =>
      intro k
      have hz : (k : ℚ) * h + h = ((k + 1 : ℕ) : ℚ) * h := by push_cast; ring
      simp only [gcodeLoop, List.enumFrom, List.flatMap_cons]
      rw [hz, ih (k + 1)]
      push_cast
      ring_nf

/-- Digits below ten render as digit characters distinct from the dot. -/
theorem digitChar_digit_ne_dot (d : ℕ) (hd : d < 10) :
    (Nat.digitChar d).isDigit = true ∧ Nat.digitChar d ≠ Char.ofNat 46 := by
  interval_cases d <;> exact ⟨by decide, by decide⟩

/-- Every formatted number has exactly two characters after its last
dot, and both are digits. -/
theorem fmt2_two_decimals (q : ℚ) :
    (decimalTail (fmt2 q)).length = 2 ∧ ∀ c ∈ decimalTail (fmt2 q), c.isDigit := by
  have hm1 : (roundHalfEven (q * 100)).natAbs % 100 / 10 < 10 := by omega
  have hm2 : (roundHalfEven (q * 100)).natAbs % 100 % 10 < 10 := by omega
  obtain ⟨hd1, hn1⟩ := digitChar_digit_ne_dot _ hm1
  obtain ⟨hd2, hn2⟩ := digitChar_digit_ne_dot _ hm2
  constructor
  · simp [decimalTail, fmt2, pad2, String.data_append, List.takeWhile_cons, hn1, hn2]
  · intro c hc
    simp [decimalTail, fmt2, pad2, String.data_append, List.takeWhile_cons, hn1, hn2] at hc
    rcases hc with rfl | rfl
    · exact hd2
    · exact hd1

/-- C4: generate_gcode emits the fixed preamble, then, for the toolpath
at 0-based index i, exactly one Z-move line at height (i+1) * h (feed
rate 300 is part of zLine) followed by one XY-move line per point in
order (feed rate 1500 is part of xyLine), then the postamble; and every
formatted numeric field has exactly two decimal digits. -/
theorem C4_generate_gcode_structure (tps : List (List Point2)) (h : ℚ) :
    generate_gcode tps h =
      preamble ++
        tps.enum.flatMap (fun p => zLine (((p.1 : ℚ) + 1) * h) :: p.2.map xyLine) ++
        postamble ∧
    ∀ q : ℚ, (decimalTail (fmt2 q)).length = 2 ∧ ∀ c ∈ decimalTail (fmt2 q), c.isDigit := by
  constructor
  · unfold generate_gcode
    have h0 : gcodeLoop h tps 0 = gcodeLoop h tps (((0 : ℕ) : ℚ) * h) := by
      norm_num
    rw [h0, gcodeLoop_eq_enumFrom h tps 0]
    simp [List.enum]
  · exact fmt2_two_decimals

/-- The layer loop rounds 1/5 to the two-decimal string 0.20. -/
theorem fmt2_one_fifth : fmt2 (1 / 5) = "0.20" := by
  have h100 : (1 / 5 : ℚ) * 100 = 20 := by norm_num
  have hround : roundHalfEven 20 = 20 := by
    unfold roundHalfEven
    norm_num
  have hneg : ¬ (1 / 5 : ℚ) < 0 := by norm_num
  unfold fmt2
  rw [h100, hround]
  simp only [hneg, if_false]
  rfl

/-- C7: on a single empty toolpath with layer height 0.2, the output is
exactly the six preamble lines, one Z-move line G1 Z0.20 F300, and the
three postamble lines, with no XY-move line anywhere. -/
theorem C7_single_empty_toolpath :
    generate_gcode [[]] (1 / 5) =
      ["G21 ; Set units to mm\n",
       "G90 ; Absolute positioning\n",
       "M104 S200 ; Set extruder temperature\n",
       "M140 S60 ; Set bed temperature\n",
       "M190 S60 ; Wait for bed temperature\n",
       "M109 S200 ; Wait for extruder temperature\n",
       "G1 Z0.20 F300 ; Move to layer height\n",
       "M104 S0 ; Turn off extruder\n",
       "M140 S0 ; Turn off bed\n",
       "M84 ; Disable motors\n"] := by
  have hz : zLine (0 + 1 / 5) = "G1 Z0.20 F300 ; Move to layer height\n" := by
    rw [show (0 + 1 / 5 : ℚ) = 1 / 5 by norm_num]
    rw [zLine, fmt2_one_fifth]
    rfl
  show preamble ++ gcodeLoop (1 / 5) [[]] 0 ++ postamble = _
  rw [show gcodeLoop (1 / 5 : ℚ) [[]] 0 = [zLine (0 + 1 / 5)] from rfl, hz]
  rfl

/-- C8: whenever the interpolation guard (z1 < z <= z2) or
(z2 < z <= z1) holds, z1 and z2 differ, so the divisor z2 - z1 of
t = (z - z1) / (z2 - z1) is nonzero: the guard alone rules out division
by zero. -/
theorem C8_interp_guard_rules_out_div_by_zero (z1 z2 z : ℚ)
    (hg : interpGuard z1 z2 z) : z1 ≠ z2 ∧ z2 - z1 ≠ 0 := by
  rcases hg with ⟨h1, h2⟩ | ⟨h1, h2⟩
  · have hlt : z1 < z2 := lt_of_lt_of_le h1 h2
    exact ⟨hlt.ne, sub_ne_zero.mpr hlt.ne'⟩
  · have hlt : z2 < z1 := lt_of_lt_of_le h1 h2
    exact ⟨hlt.ne', sub_ne_zero.mpr hlt.ne⟩

/-- C8 witness: the guard holds at z1 = 0, z2 = 1, z = 1, and there the
divisor is nonzero. -/
theorem C8_interp_guard_rules_out_div_by_zero_witness :
    interpGuard 0 1 1 ∧ ((0 : ℚ) ≠ 1 ∧ (1 : ℚ) - 0 ≠ 0) := by
  have hg : interpGuard 0 1 1 := Or.inl ⟨by norm_num, le_refl 1⟩
  exact ⟨hg, C8_interp_guard_rules_out_div_by_zero 0 1 1 hg⟩

/-- C9: the full pipeline (slice, toolpaths, gcode) is deterministic:
two runs on equal meshes and equal layer heights (with the same loop
fuel) produce identical command streams; no input other than the mesh
and the layer height influences the output. -/
theorem C9_pipeline_deterministic (m1 m2 : List Triangle) (h1 h2 : ℚ)
    (fuel : Nat) (hm : m1 = m2) (hh : h1 = h2) :
    pipeline m1 h1 fuel = pipeline m2 h2 fuel := by
  subst hm
  subst hh
  rfl

/-- C9 witness: two runs on the sample mesh coincide. -/
theorem C9_pipeline_deterministic_witness :
    sampleMesh = sampleMesh ∧ (1 / 2 : ℚ) = 1 / 2 ∧
    pipeline sampleMesh (1 / 2) 4 = pipeline sampleMesh (1 / 2) 4 :=
  ⟨rfl, rfl, C9_pipeline_deterministic sampleMesh sampleMesh (1 / 2) (1 / 2) 4 rfl rfl⟩

/-- An edge wholly below the plane contributes nothing. -/
theorem edgeIntersection_below (p1 p2 : Vec3) (z : ℚ)
    (h1 : p1.z < z) (h2 : p2.z < z) : edgeIntersection p1 p2 z = [] := by
  have hA : ¬ (p1.z = z ∧ p2.z = z) := by
    rintro ⟨he, -⟩
    exact h1.ne he
  have hB : ¬ interpGuard p1.z p2.z z := by
    unfold interpGuard
    rintro (⟨-, hle⟩ | ⟨-, hle⟩)
    · exact absurd hle (not_le.mpr h2)
    · exact absurd hle (not_le.mpr h1)
  simp [edgeIntersection, hA, hB]

/-- An edge wholly above the plane contributes nothing. -/
theorem edgeIntersection_above (p1 p2 : Vec3) (z : ℚ)
    (h1 : z < p1.z) (h2 : z < p2.z) : edgeIntersection p1 p2 z = [] := by
  have hA : ¬ (p1.z = z ∧ p2.z = z) := by
    rintro ⟨he, -⟩
    exact h1.ne' he
  have hB : ¬ interpGuard p1.z p2.z z := by
    unfold interpGuard
    rintro (⟨hlt, -⟩ | ⟨hlt, -⟩)
    · exact lt_asymm h1 hlt
    · exact lt_asymm h2 hlt
  simp [edgeIntersection, hA, hB]

/-- An edge rising strictly through the plane contributes exactly one
point. -/
theorem edgeIntersection_cross_up (p1 p2 : Vec3) (z : ℚ)
    (h1 : p1.z < z) (h2 : z < p2.z) : (edgeIntersection p1 p2 z).length = 1 := by
  have hA : ¬ (p1.z = z ∧ p2.z = z) := by
    rintro ⟨he, -⟩
    exact h1.ne he
  have hB : interpGuard p1.z p2.z z := Or.inl ⟨h1, h2.le⟩
  simp [edgeIntersection, hA, hB]

/-- An edge falling strictly through the plane contributes exactly one
point. -/
theorem edgeIntersection_cross_down (p1 p2 : Vec3) (z : ℚ)
    (h1 : z < p1.z) (h2 : p2.z < z) : (edgeIntersection p1 p2 z).length = 1 := by
  have hA : ¬ (p1.z = z ∧ p2.z = z) := by
    rintro ⟨he, -⟩
    exact h1.ne' he
  have hB : interpGuard p1.z p2.z z := Or.inr ⟨h2, h1.le⟩
  simp [edgeIntersection, hA, hB]

/-- C6: a plane height strictly between the triangle's minimum and
maximum z-coordinate and equal to no vertex z-coordinate yields exactly
two intersection points; and an edge whose endpoints differ in z,
intersected at the midplane z = (z1 + z2) / 2, yields exactly its
midpoint. -/
theorem C6_strict_plane_two_points (tri : Triangle) (z : ℚ)
    (h0 : tri.v0.z ≠ z) (h1 : tri.v1.z ≠ z) (h2 : tri.v2.z ≠ z)
    (hmin : min tri.v0.z (min tri.v1.z tri.v2.z) < z)
    (hmax : z < max tri.v0.z (max tri.v1.z tri.v2.z)) :
    (calculate_plane_intersection tri z).length = 2 ∧
    (∀ p1 p2 : Vec3, p1.z ≠ p2.z →
      edgeIntersection p1 p2 ((p1.z + p2.z) / 2) =
        [((p1.x + p2.x) / 2, (p1.y + p2.y) / 2)]) := by
  constructor
  · rw [calculate_plane_intersection_eq_edges, List.length_append, List.length_append]
    rcases h0.lt_or_lt with ha | ha <;> rcases h1.lt_or_lt with hb | hb <;>
      rcases h2.lt_or_lt with hc | hc
    · exact absurd hmax (lt_asymm (max_lt ha (max_lt hb hc)))
    · simp [edgeIntersection_below _ _ _ ha hb, edgeIntersection_cross_up _ _ _ hb hc,
        edgeIntersection_cross_down _ _ _ hc ha]
    · simp [edgeIntersection_cross_up _ _ _ ha hb, edgeIntersection_cross_down _ _ _ hb hc,
        edgeIntersection_below _ _ _ hc ha]
    · simp [edgeIntersection_cross_up _ _ _ ha hb, edgeIntersection_above _ _ _ hb hc,
        edgeIntersection_cross_down _ _ _ hc ha]
    · simp [edgeIntersection_cross_down _ _ _ ha hb, edgeIntersection_below _ _ _ hb hc,
        edgeIntersection_cross_up _ _ _ hc ha]
    · simp [edgeIntersection_cross_down _ _ _ ha hb, edgeIntersection_cross_up _ _ _ hb hc,
        edgeIntersection_above _ _ _ hc ha]
    · simp [edgeIntersection_above _ _ _ ha hb, edgeIntersection_cross_down _ _ _ hb hc,
        edgeIntersection_cross_up _ _ _ hc ha]
    · exact absurd hmin (lt_asymm (lt_min ha (lt_min hb hc)))
  · intro p1 p2 hne
    have hsub : p2.z - p1.z ≠ 0 := sub_ne_zero.mpr (Ne.symm hne)
    have ht : ((p1.z + p2.z) / 2 - p1.z) / (p2.z - p1.z) = 1 / 2 := by
      rw [div_eq_iff hsub]
      ring
    have hA : ¬ (p1.z = (p1.z + p2.z) / 2 ∧ p2.z = (p1.z + p2.z) / 2) := by
      rintro ⟨ha, hb⟩
      apply hne
      linarith
    have hB : interpGuard p1.z p2.z ((p1.z + p2.z) / 2) := by
      rcases hne.lt_or_lt with hlt | hlt
      · exact Or.inl ⟨by linarith, by linarith⟩
      · exact Or.inr ⟨by linarith, by linarith⟩
    simp only [edgeIntersection, if_neg hA, if_pos hB, proj2, vAdd, vSmul, vSub]
    rw [ht]
    simp only [List.cons.injEq, and_true, Prod.mk.injEq]
    constructor <;> ring

/-- C6 witness: a concrete strictly-cut triangle has two intersection
points, and a concrete edge cut at its midplane z = 3 returns its
midpoint (1, 2). -/
theorem C6_strict_plane_two_points_witness :
    (calculate_plane_intersection ⟨⟨0, 0, 0⟩, ⟨1, 0, 0⟩, ⟨0, 1, 1⟩⟩ (1 / 2)).length = 2 ∧
    edgeIntersection ⟨0, 0, 0⟩ ⟨2, 4, 6⟩ 3 = [(1, 2)] := by
  have hC := C6_strict_plane_two_points ⟨⟨0, 0, 0⟩, ⟨1, 0, 0⟩, ⟨0, 1, 1⟩⟩ (1 / 2)
    (by norm_num) (by norm_num) (by norm_num)
    (by norm_num [min_def]) (by norm_num [max_def])
  refine ⟨hC.1, ?_⟩
  have h := hC.2 ⟨0, 0, 0⟩ ⟨2, 4, 6⟩ (by norm_num)
  norm_num at h
  exact h

end StlToGcode
